import Mathlib

/-!
Verification development for the podman bindings generator
(`pkg/bindings/generator/generator.go`).

The generator reads a Go source file, finds the struct type declaration named
by its first argument, and writes a companion `*_options.go` file with
`With<Field>` / `Get<Field>` accessor methods rendered from a text template.

This file shallowly embeds the generator: Go strings become `String`
(raw source bytes become `List Char`), the relevant `go/ast` node shapes
become inductives, the `text/template` body becomes explicit string
concatenation, and `main`'s traversal becomes a fold over the type
specifications in traversal order.  `panic` and `os.Exit(1)` become an
abort value threaded through the fold.
-/

/-! ## Go string library fragment -/

/-- `unicode.IsSpace` restricted to the code points Go recognises that can
appear here (ASCII whitespace plus NEL and NBSP). -/
def goIsSpace (c : Char) : Bool :=
  c = ' ' || c = '\t' || c = '\n' || c = '\x0b' || c = '\x0c' || c = '\r' ||
  c = '\x85' || c = '\xa0'

/-- `strings.TrimSpace` on the character list: drop leading and trailing
whitespace. -/
def trimSpaceL (l : List Char) : List Char :=
  ((l.dropWhile goIsSpace).reverse.dropWhile goIsSpace).reverse

/-- `strings.TrimRight(s, cutset)`: remove the longest trailing run of
characters that belong to `cutset` (NOT suffix removal). -/
def trimRightCutset (l : List Char) (cutset : List Char) : List Char :=
  (l.reverse.dropWhile (fun c => cutset.contains c)).reverse

/-- `strings.Replace(s, old, new, 1)` for the character list: replace the
first occurrence of `pat` (leftmost starting position) by `rep`. -/
def strReplace1 : List Char → List Char → List Char → List Char
  | [], _, _ => []
  | c :: rest, pat, rep =>
    if pat.isPrefixOf (c :: rest) then rep ++ (c :: rest).drop pat.length
    else c :: strReplace1 rest pat rep

/-- `strings.ToLower` (ASCII fragment of `unicode.ToLower`, which is all the
generator's inputs use). -/
def goToLower (s : String) : String :=
  (s.data.map Char.toLower).asString

/-- The slice `b[start:stop]` of the raw source bytes. -/
def sliceBytes (b : List Char) (start stop : Nat) : List Char :=
  (b.drop start).take (stop - start)

/-! ## `go/ast` fragment

Only the node shapes the generator inspects.  A field's type expression
matters to the generator in two ways: its dynamic node kind (for the
composite `switch`) and its source byte offsets (for the verbatim text
slice), so `Field` carries the `GoType` plus the `Pos()`/`End()` offsets
that `go/ast` stores on every node. -/

/-- The dynamic kind of a field's type expression (`ast.Expr`). -/
inductive GoType where
  | ident (name : String)
  | starExpr (elem : GoType)
  | selectorExpr (x : GoType) (sel : String)
  | mapType (key value : GoType)
  | arrayType (elem : GoType)
  | structType
  | funcType
  | chanType (elem : GoType)
  | interfaceType
deriving DecidableEq

/-- One entry of a struct's `Fields.List` (`*ast.Field`): its name tokens,
its type expression with 1-based `Pos()`/`End()` byte offsets, and the text
of its attached comment group (`field.Comment.Text()`). -/
structure GoField where
  names : List String
  ty : GoType
  typePos : Nat
  typeEnd : Nat
  comment : String
deriving DecidableEq

/-- The underlying type of a `*ast.TypeSpec`: either a struct type (whose
field list the generator iterates) or anything else (on which the
generator's type assertion `ref.Type.(*ast.StructType)` panics). -/
inductive TypeDef where
  | structDef (fields : List GoField)
  | otherDef (t : GoType)
deriving DecidableEq

/-- A `*ast.TypeSpec`: a named type declaration. -/
structure TypeSpec where
  name : String
  def_ : TypeDef
deriving DecidableEq

/-- The parsed source file: its import path literals (quotes included, as in
`imp.Path.Value`) and its type specifications in `ast.Inspect` traversal
order. -/
structure SrcFile where
  importPaths : List String
  specs : List TypeSpec
deriving DecidableEq

/-! ## The generator's per-field processing -/

/-- The `fieldStruct` record filled in for each field entry. -/
structure fieldStruct where
  Comment : String
  Composite : Bool
  Name : String
  StructName : String
  Type_ : String
deriving DecidableEq

/-- The composite `switch field.Type.(type)`: only map, inline-struct and
array/slice type nodes are composite. -/
def isComposite : GoType → Bool
  | .mapType _ _ => true
  | .structType => true
  | .arrayType _ => true
  | _ => false

/-- `fmtComment`: lower-case the first rune (when the string is non-empty;
`utf8.DecodeRuneInString` yields `RuneError` on the empty string and the
comment is left unchanged), then `strings.TrimSpace`. -/
def fmtComment (comment : String) : String :=
  let lowered := match comment.data with
    | [] => comment
    | r :: rest => (Char.toLower r :: rest).asString
  (trimSpaceL lowered.data).asString

/-- The verbatim type text: slice the raw bytes between `Pos()-1` and
`End()-1` and remove the first `*` occurrence
(`strings.Replace(string(b[start:end]), "*", "", 1)`). -/
def fieldTypeText (b : List Char) (typePos typeEnd : Nat) : List Char :=
  strReplace1 (sliceBytes b (typePos - 1) (typeEnd - 1)) ['*'] []

/-- The body of the `for _, field := range x.Fields.List` loop for one
entry: extract the first name token (empty when there is none; `panic` with
"bad name" when the first token is the empty string), classify
compositeness, slice the type text, and build the `fieldStruct`. -/
def processField (b : List Char) (structName : String) (f : GoField) :
    Except String fieldStruct :=
  match f.names with
  | n :: _ =>
    if n.length < 1 then .error "bad name"
    else
      .ok { Comment := fmtComment f.comment
            Composite := isComposite f.ty
            Name := n
            StructName := structName
            Type_ := (fieldTypeText b f.typePos f.typeEnd).asString }
  | [] =>
    .ok { Comment := fmtComment f.comment
          Composite := isComposite f.ty
          Name := ""
          StructName := structName
          Type_ := (fieldTypeText b f.typePos f.typeEnd).asString }

/-- The whole field loop: process entries in declaration order, aborting on
the first `panic`. -/
def processFields (b : List Char) (structName : String) :
    List GoField → Except String (List fieldStruct)
  | [] => .ok []
  | f :: rest =>
    match processField b structName f with
    | .error e => .error e
    | .ok fs =>
      match processFields b structName rest with
      | .error e => .error e
      | .ok l => .ok (fs :: l)

/-! ## The template (`bodyTmpl`)

`text/template` output is deterministic concatenation, embedded here as
explicit `String` appends.  The per-declaration pieces are factored through
`GenDecl` so that theorems can speak about the list of generated method
declarations; joining the printed pieces reproduces the template output
byte for byte. -/

/-- The template data (`bodyStruct` in `main`). -/
structure bodyStruct where
  PackageName : String
  Imports : List String
  StructName : String
  Fields : List fieldStruct
deriving DecidableEq

/-- One generated declaration of the rendered file. -/
inductive GenDecl where
  | changed (structName : String)
  | toParams (structName : String)
  | setter (fs : fieldStruct)
  | getter (fs : fieldStruct)
deriving DecidableEq

/-- The `With<Name>` block of the template, leading blank line included. -/
def printSetter (fs : fieldStruct) : String :=
  "\n// With" ++ fs.Name ++ " set " ++
    (if fs.Comment = "" then "field " ++ fs.Name ++ " to given value"
     else fs.Comment) ++ "\n" ++
  "func(o *" ++ fs.StructName ++ ") With" ++ fs.Name ++ "(value " ++
    fs.Type_ ++ ") *" ++ fs.StructName ++ " \x7b\n" ++
  "\to." ++ fs.Name ++ " = " ++ (if fs.Composite then "" else "&") ++
    "value\n" ++
  "\treturn o\n" ++
  "\x7d\n"

/-- The `Get<Name>` block of the template, leading blank line included. -/
def printGetter (fs : fieldStruct) : String :=
  "\n// Get" ++ fs.Name ++ " returns value of " ++
    (if fs.Comment = "" then "field " ++ fs.Name else fs.Comment) ++ "\n" ++
  "func(o *" ++ fs.StructName ++ ") Get" ++ fs.Name ++ "() " ++ fs.Type_ ++
    " \x7b\n" ++
  "\tif o." ++ fs.Name ++ " == nil \x7b\n" ++
  "\t\tvar z " ++ fs.Type_ ++ "\n" ++
  "\t\treturn z\n" ++
  "\t\x7d\n" ++
  "    return " ++ (if fs.Composite then "" else "*") ++ "o." ++ fs.Name ++
    "\n" ++
  "\x7d\n"

/-- Print one generated declaration exactly as the template emits it. -/
def printDecl : GenDecl → String
  | .changed sn =>
    "\n// Changed returns true if named field has been set\n" ++
    "func (o *" ++ sn ++ ") Changed(fieldName string) bool \x7b\n" ++
    "\treturn util.Changed(o, fieldName)\n" ++
    "\x7d\n"
  | .toParams sn =>
    "\n// ToParams formats struct fields to be passed to API service\n" ++
    "func (o *" ++ sn ++ ") ToParams() (url.Values, error) \x7b\n" ++
    "\treturn util.ToParams(o)\n" ++
    "\x7d\n\n"
  | .setter fs => printSetter fs
  | .getter fs => printGetter fs

/-- The per-field declarations: one setter and one getter per
`fieldStruct`, in order. -/
def fieldDecls (l : List fieldStruct) : List GenDecl :=
  l.flatMap (fun fs => [GenDecl.setter fs, GenDecl.getter fs])

/-- All declarations the template renders, in order. -/
def renderDecls (bs : bodyStruct) : List GenDecl :=
  GenDecl.changed bs.StructName :: GenDecl.toParams bs.StructName ::
    fieldDecls bs.Fields

/-- The package clause and import block of the template. -/
def headerText (pkg : String) (imports : List String) : String :=
  "// Code generated by go generate; DO NOT EDIT.\npackage " ++ pkg ++
  "\n\nimport (\n" ++
  String.join (imports.map (fun i => "\t" ++ i ++ "\n")) ++
  ")\n"

/-- `body.Execute`: the full template output. -/
def renderBody (bs : bodyStruct) : String :=
  headerText bs.PackageName bs.Imports ++
  String.join ((renderDecls bs).map printDecl) ++ "\n"

/-- The names of the `With` methods of a declaration list, in order. -/
def setterNames (l : List GenDecl) : List String :=
  l.filterMap (fun d => match d with
    | .setter fs => some fs.Name
    | _ => none)

/-- The names of the `Get` methods of a declaration list, in order. -/
def getterNames (l : List GenDecl) : List String :=
  l.filterMap (fun d => match d with
    | .getter fs => some fs.Name
    | _ => none)

/-! ## Output file name -/

/-- `strings.TrimRight(srcFile, ".go") + "_" +
strings.Replace(strings.ToLower(inputStructName), "options", "_options", 1)
+ ".go"`. -/
def outFileName (srcFile inputStructName : String) : String :=
  (trimRightCutset srcFile.data ['.', 'g', 'o']).asString ++ "_" ++
  (strReplace1 (goToLower inputStructName).data
      "options".data "_options".data).asString ++ ".go"

/-! ## The run model (`main` after a successful parse)

`os.Create` truncates the output file before the `ast.Inspect` walk, so the
file's final content is exactly the bytes successfully written during the
walk.  The two post-processing tools (`go fmt`, `goimports`) are external
collaborators and are modelled as succeeding. -/

/-- How a run terminates: normally (exit 0), via `os.Exit(1)` (a failed
template execution or close), or via `panic`. -/
inductive ExitKind where
  | ok
  | exit1
  | panicked
deriving DecidableEq

/-- The mutable state of the `ast.Inspect` closure: the accumulated
`fieldStructs` slice, the `closed` flag, and the bytes written to `out`. -/
structure LoopState where
  fieldStructs : List fieldStruct
  closed : Bool
  content : String
deriving DecidableEq

/-- One pass of the `ast.Inspect` callback over the type specifications in
traversal order.  A non-matching spec is skipped.  A matching one panics if
its underlying type is not a struct, processes its fields (panicking on a
bad name), appends them to the accumulated slice, and executes the
template: against an already-closed `out` the execution fails and the
program exits 1; otherwise the body is written, the file closed, and the
(modelled-as-succeeding) formatting tools run. -/
def inspectLoop (target pkg : String) (imports : List String)
    (b : List Char) :
    List TypeSpec → LoopState → LoopState × Option ExitKind
  | [], st => (st, none)
  | ts :: rest, st =>
    if ts.name = target then
      match ts.def_ with
      | .otherDef _ => (st, some ExitKind.panicked)
      | .structDef fields =>
        match processFields b target fields with
        | .error _ => (st, some ExitKind.panicked)
        | .ok l =>
          let st1 : LoopState :=
            { st with fieldStructs := st.fieldStructs ++ l }
          if st1.closed then (st1, some ExitKind.exit1)
          else
            let body := renderBody
              { PackageName := pkg, Imports := imports,
                StructName := target, Fields := st1.fieldStructs }
            inspectLoop target pkg imports b rest
              { fieldStructs := st1.fieldStructs, closed := true,
                content := st1.content ++ body }
    else inspectLoop target pkg imports b rest st

/-- The observable result of a run: the created output file's name, its
final content, and the exit kind. -/
structure RunResult where
  outName : String
  content : String
  exit : ExitKind
deriving DecidableEq

/-- `main` after `ioutil.ReadFile` and `parser.ParseFile` succeeded: build
the import list (the two fixed entries first), create (truncate) the output
file, and walk the tree. -/
def runMain (b : List Char) (f : SrcFile)
    (srcFile target pkg : String) : RunResult :=
  let imports :=
    "\"reflect\"" ::
    "\"github.com/containers/podman/v4/pkg/bindings/internal/util\"" ::
    f.importPaths
  let name := outFileName srcFile target
  let res := inspectLoop target pkg imports b f.specs
    { fieldStructs := [], closed := false, content := "" }
  { outName := name
    content := res.1.content
    exit := (res.2).getD ExitKind.ok }

/-! ## Helper lemmas on the string fragment -/

/-- A character occurrence check used to state first-occurrence facts:
whether `pat` occurs in `s` starting at byte offset `i`. -/
def occursAt (s pat : List Char) (i : Nat) : Bool :=
  pat.isPrefixOf (s.drop i)

/-- Whether `pat` occurs anywhere in `s`. -/
def containsPat (s pat : List Char) : Bool :=
  (List.range (s.length + 1)).any (fun i => occursAt s pat i)

theorem containsPat_false_isPrefixOf (s pat : List Char)
    (h : containsPat s pat = false) :
    ∀ i, pat.isPrefixOf (s.drop i) = false := by
  intro i
  have hall : ∀ j, j < s.length + 1 → occursAt s pat j = false := by
    intro j hj
    cases hb : occursAt s pat j with
    | false => rfl
    | true =>
      have htrue : containsPat s pat = true := by
        unfold containsPat
        rw [List.any_eq_true]
        exact ⟨j, List.mem_range.mpr hj, hb⟩
      rw [h] at htrue
      exact absurd htrue (by simp)
  by_cases hi : i ≤ s.length
  · exact hall i (Nat.lt_succ_of_le hi)
  · have hdrop : s.drop i = [] :=
      List.drop_eq_nil_of_le (Nat.le_of_not_le hi)
    rw [hdrop]
    cases pat with
    | nil =>
      have h0 := hall 0 (Nat.succ_pos _)
      simp [occursAt, List.isPrefixOf] at h0
    | cons p ps => rfl

theorem strReplace1_of_no_occ (pat rep s : List Char)
    (h : ∀ i, pat.isPrefixOf (s.drop i) = false) :
    strReplace1 s pat rep = s := by
  induction s with
  | nil => rfl
  | cons c rest ih =>
    have h0 : pat.isPrefixOf (c :: rest) = false := by
      have := h 0
      simpa using this
    rw [strReplace1, if_neg (by simp [h0])]
    have : strReplace1 rest pat rep = rest := by
      apply ih
      intro i
      have := h (i + 1)
      simpa using this
    rw [this]

theorem strReplace1_at (pat rep s : List Char) (i : Nat) (hpat : pat ≠ [])
    (h : pat.isPrefixOf (s.drop i) = true)
    (hmin : ∀ j, j < i → pat.isPrefixOf (s.drop j) = false) :
    strReplace1 s pat rep = s.take i ++ rep ++ s.drop (i + pat.length) := by
  induction s generalizing i with
  | nil =>
    rw [List.drop_nil] at h
    cases pat with
    | nil => exact absurd rfl hpat
    | cons p ps => simp [List.isPrefixOf] at h
  | cons c rest ih =>
    cases i with
    | zero =>
      rw [List.drop_zero] at h
      rw [strReplace1, if_pos h]
      simp
    | succ k =>
      have h0 : pat.isPrefixOf (c :: rest) = false := by
        have := hmin 0 (Nat.succ_pos k)
        simpa using this
      rw [strReplace1, if_neg (by simp [h0])]
      have hrec := ih k (by simpa using h)
        (fun j hj => by
          have := hmin (j + 1) (Nat.succ_lt_succ hj)
          simpa using this)
      rw [hrec]
      simp [Nat.succ_add]

theorem strReplace1_single_notMem (t : Char) (s rep : List Char)
    (h : t ∉ s) :
    strReplace1 s [t] rep = s := by
  induction s with
  | nil => rfl
  | cons c rest ih =>
    have hc : ¬(t = c) := fun e => h (e ▸ List.mem_cons_self c rest)
    rw [strReplace1, if_neg (by simp [List.isPrefixOf]; exact fun e => hc e)]
    rw [ih (fun hm => h (List.mem_cons_of_mem c hm))]

theorem strReplace1_single_first (t : Char) (u v rep : List Char)
    (h : t ∉ u) :
    strReplace1 (u ++ t :: v) [t] rep = u ++ rep ++ v := by
  induction u with
  | nil => simp [strReplace1, List.isPrefixOf]
  | cons c u' ih =>
    have hc : ¬(t = c) := fun e => h (e ▸ List.mem_cons_self c u')
    rw [List.cons_append, strReplace1,
      if_neg (by simp [List.isPrefixOf]; exact fun e => hc e)]
    rw [ih (fun hm => h (List.mem_cons_of_mem c hm))]
    simp

theorem dropWhile_append_of_all (p : Char → Bool) (l1 l2 : List Char)
    (h : ∀ c ∈ l1, p c = true) :
    (l1 ++ l2).dropWhile p = l2.dropWhile p := by
  induction l1 with
  | nil => rfl
  | cons c rest ih =>
    rw [List.cons_append, List.dropWhile_cons, if_pos (h c (List.mem_cons_self c rest))]
    exact ih (fun d hd => h d (List.mem_cons_of_mem c hd))

theorem dropWhile_of_head_false (p : Char → Bool) (l : List Char)
    (h : ∀ c, l.head? = some c → p c = false) :
    l.dropWhile p = l := by
  cases l with
  | nil => rfl
  | cons c rest =>
    rw [List.dropWhile_cons, if_neg (by rw [h c rfl]; simp)]

theorem dropWhile_of_all (p : Char → Bool) (l : List Char)
    (h : ∀ c ∈ l, p c = true) :
    l.dropWhile p = [] := by
  induction l with
  | nil => rfl
  | cons c rest ih =>
    rw [List.dropWhile_cons, if_pos (h c (List.mem_cons_self c rest))]
    exact ih (fun d hd => h d (List.mem_cons_of_mem c hd))

theorem trimRightCutset_append (u v cutset : List Char)
    (hv : ∀ c ∈ v, c ∈ cutset)
    (hu : ∀ c, u.getLast? = some c → c ∉ cutset) :
    trimRightCutset (u ++ v) cutset = u := by
  unfold trimRightCutset
  rw [List.reverse_append]
  rw [dropWhile_append_of_all _ v.reverse u.reverse
    (fun c hc => by
      simp [List.contains]
      exact hv c (List.mem_reverse.mp hc))]
  rw [dropWhile_of_head_false _ u.reverse
    (fun c hc => by
      simp [List.contains]
      exact hu c (by rwa [List.head?_reverse] at hc))]
  exact List.reverse_reverse u

theorem trimSpaceL_eq (sp1 m sp2 : List Char)
    (h1 : ∀ c ∈ sp1, goIsSpace c = true)
    (h2 : ∀ c ∈ sp2, goIsSpace c = true)
    (hh : ∀ c, m.head? = some c → goIsSpace c = false)
    (hl : ∀ c, m.getLast? = some c → goIsSpace c = false) :
    trimSpaceL (sp1 ++ (m ++ sp2)) = m := by
  unfold trimSpaceL
  rw [dropWhile_append_of_all _ sp1 (m ++ sp2) h1]
  cases m with
  | nil =>
    rw [List.nil_append, dropWhile_of_all _ sp2 h2]
    rfl
  | cons c m' =>
    rw [List.cons_append, List.dropWhile_cons, if_neg (by rw [hh c rfl]; simp)]
    rw [show (c :: (m' ++ sp2)).reverse = sp2.reverse ++ (c :: m').reverse by
      simp]
    rw [dropWhile_append_of_all _ sp2.reverse (c :: m').reverse
      (fun d hd => h2 d (List.mem_reverse.mp hd))]
    rw [dropWhile_of_head_false _ (c :: m').reverse
      (fun d hd => hl d (by rwa [List.head?_reverse] at hd))]
    exact List.reverse_reverse _

/-! ## Helper lemmas on the generator -/

/-- The name the generator extracts from a field entry: the first name
token, or the empty string when the entry has none. -/
def goFieldName (f : GoField) : String :=
  match f.names with
  | [] => ""
  | n :: _ => n

theorem processField_ok_name (b : List Char) (sn : String) (f : GoField)
    (fs : fieldStruct) (h : processField b sn f = .ok fs) :
    fs.Name = goFieldName f := by
  unfold processField at h
  unfold goFieldName
  cases hn : f.names with
  | nil =>
    rw [hn] at h
    cases h
    rfl
  | cons n ns =>
    rw [hn] at h
    simp only at h ⊢
    by_cases hlen : n.length < 1
    · rw [if_pos hlen] at h
      cases h
    · rw [if_neg hlen] at h
      cases h
      rfl

theorem processFields_ok_names (b : List Char) (sn : String)
    (fields : List GoField) (l : List fieldStruct)
    (h : processFields b sn fields = .ok l) :
    l.map (fun fs => fs.Name) = fields.map goFieldName := by
  induction fields generalizing l with
  | nil =>
    unfold processFields at h
    cases h
    rfl
  | cons f rest ih =>
    unfold processFields at h
    cases hf : processField b sn f with
    | error e => rw [hf] at h; cases h
    | ok fs =>
      rw [hf] at h
      cases hr : processFields b sn rest with
      | error e => rw [hr] at h; cases h
      | ok l' =>
        rw [hr] at h
        cases h
        simp only [List.map_cons]
        rw [processField_ok_name b sn f fs hf, ih l' hr]

theorem setterNames_fieldDecls (l : List fieldStruct) :
    setterNames (fieldDecls l) = l.map (fun fs => fs.Name) := by
  induction l with
  | nil => rfl
  | cons fs rest ih =>
    simp only [fieldDecls, List.flatMap_cons, setterNames, List.filterMap_append]
    simp only [fieldDecls, setterNames] at ih
    rw [ih]
    rfl

theorem getterNames_fieldDecls (l : List fieldStruct) :
    getterNames (fieldDecls l) = l.map (fun fs => fs.Name) := by
  induction l with
  | nil => rfl
  | cons fs rest ih =>
    simp only [fieldDecls, List.flatMap_cons, getterNames, List.filterMap_append]
    simp only [fieldDecls, getterNames] at ih
    rw [ih]
    rfl

theorem setterNames_renderDecls (bs : bodyStruct) :
    setterNames (renderDecls bs) = bs.Fields.map (fun fs => fs.Name) := by
  unfold renderDecls setterNames
  rw [List.filterMap_cons, List.filterMap_cons]
  exact setterNames_fieldDecls bs.Fields

theorem getterNames_renderDecls (bs : bodyStruct) :
    getterNames (renderDecls bs) = bs.Fields.map (fun fs => fs.Name) := by
  unfold renderDecls getterNames
  rw [List.filterMap_cons, List.filterMap_cons]
  exact getterNames_fieldDecls bs.Fields

/-! ## Helper lemmas on the run model -/

theorem inspectLoop_skip (target pkg : String) (imports : List String)
    (b : List Char) (specs : List TypeSpec) (st : LoopState)
    (h : ∀ ts ∈ specs, ts.name ≠ target) :
    inspectLoop target pkg imports b specs st = (st, none) := by
  induction specs with
  | nil => rfl
  | cons ts rest ih =>
    unfold inspectLoop
    rw [if_neg (h ts (List.mem_cons_self ts rest))]
    exact ih (fun ts' hts' => h ts' (List.mem_cons_of_mem ts hts'))

theorem inspectLoop_closed_content (target pkg : String)
    (imports : List String) (b : List Char) (specs : List TypeSpec)
    (st : LoopState) (h : st.closed = true) :
    (inspectLoop target pkg imports b specs st).1.content = st.content ∧
    (inspectLoop target pkg imports b specs st).1.closed = true := by
  induction specs generalizing st with
  | nil => exact ⟨rfl, h⟩
  | cons ts rest ih =>
    unfold inspectLoop
    by_cases hname : ts.name = target
    · rw [if_pos hname]
      cases hdef : ts.def_ with
      | otherDef t => exact ⟨rfl, h⟩
      | structDef fields =>
        cases hp : processFields b target fields with
        | error e => simp [hp]; exact h
        | ok l => simp [hp, h]
    · rw [if_neg hname]
      exact ih st h

theorem inspectLoop_closed_aborts (target pkg : String)
    (imports : List String) (b : List Char) (specs : List TypeSpec)
    (st : LoopState) (h : st.closed = true)
    (hmatch : ∃ ts ∈ specs, ts.name = target) :
    (inspectLoop target pkg imports b specs st).2 ≠ none := by
  induction specs generalizing st with
  | nil => simp at hmatch
  | cons ts rest ih =>
    unfold inspectLoop
    by_cases hname : ts.name = target
    · rw [if_pos hname]
      cases hdef : ts.def_ with
      | otherDef t => simp
      | structDef fields =>
        cases hp : processFields b target fields with
        | error e => simp [hp]
        | ok l => simp [hp, h]
    · rw [if_neg hname]
      apply ih st h
      rcases hmatch with ⟨ts2, hts2, hname2⟩
      rcases List.mem_cons.mp hts2 with he | hm
      · exact absurd (he ▸ hname2) hname
      · exact ⟨ts2, hm, hname2⟩

theorem inspectLoop_never_ok (target pkg : String) (imports : List String)
    (b : List Char) (specs : List TypeSpec) (st : LoopState) :
    (inspectLoop target pkg imports b specs st).2 ≠ some ExitKind.ok := by
  induction specs generalizing st with
  | nil => simp [inspectLoop]
  | cons ts rest ih =>
    unfold inspectLoop
    by_cases hname : ts.name = target
    · rw [if_pos hname]
      cases hdef : ts.def_ with
      | otherDef t => simp
      | structDef fields =>
        cases hp : processFields b target fields with
        | error e => simp [hp]
        | ok l =>
          by_cases hc : st.closed = true
          · simp [hp, hc]
          · simp only [hp]
            rw [if_neg (by simpa using hc)]
            exact ih _
    · rw [if_neg hname]
      exact ih st

theorem processField_ok_type (b : List Char) (sn : String) (f : GoField)
    (fs : fieldStruct) (h : processField b sn f = .ok fs) :
    fs.Type_ = (fieldTypeText b f.typePos f.typeEnd).asString := by
  unfold processField at h
  cases hn : f.names with
  | nil => rw [hn] at h; cases h; rfl
  | cons n ns =>
    rw [hn] at h
    simp only at h
    by_cases hlen : n.length < 1
    · rw [if_pos hlen] at h; cases h
    · rw [if_neg hlen] at h; cases h; rfl

/-! ## Spec-side definitions used for comparison

These two definitions follow the specification's words, not the code; they
exist only to be compared against the code-derived definitions above. -/

/-- Output file name as the spec's words describe it: source file name with
its `.go` extension removed (kept whole when there is none), an underscore,
the lower-cased type name with `options` rewritten to `_options` on its
first occurrence, and `.go`. -/
def specOutFileName (srcFile inputStructName : String) : String :=
  (if (".go".data.reverse).isPrefixOf srcFile.data.reverse
   then (srcFile.data.take (srcFile.data.length - 3)).asString
   else srcFile) ++ "_" ++
  (strReplace1 (goToLower inputStructName).data
      "options".data "_options".data).asString ++ ".go"

/-- All field names a struct's entries declare, in order: every name token
of every entry (a multi-name entry such as `A, B int` declares several
fields). -/
def declaredFieldNames (fields : List GoField) : List String :=
  fields.flatMap (fun f => f.names)

/-! ## C5 -/

/-- C5 counterexample: the claim says the output name starts with the source
file name "with its extension removed", but the code uses
`strings.TrimRight(srcFile, ".go")`, a cutset trim: for `foo.go` it strips
the trailing `o`, `o` of `foo` as well and produces `f_opts.go`, not
`foo_opts.go`. -/
theorem outFileName_extension_counterexample :
    outFileName "foo.go" "Opts" = "f_opts.go" ∧
    specOutFileName "foo.go" "Opts" = "foo_opts.go" ∧
    outFileName "foo.go" "Opts" ≠ specOutFileName "foo.go" "Opts" := by
  refine ⟨by decide, by decide, by decide⟩

/-- C5 (amended): the output file name is the source file name with its
longest trailing run of characters drawn from `{'.', 'g', 'o'}` removed,
then an underscore, then the lower-cased target type name with the literal
substring "options" rewritten to "_options" at its first (leftmost)
occurrence only, then ".go". -/
theorem outFileName_characterization (u v : List Char) (n : String)
    (hv : ∀ c ∈ v, c ∈ (['.', 'g', 'o'] : List Char))
    (hu : ∀ c, u.getLast? = some c → c ∉ (['.', 'g', 'o'] : List Char)) :
    outFileName (u ++ v).asString n =
      u.asString ++ "_" ++
        (strReplace1 (goToLower n).data "options".data "_options".data).asString
        ++ ".go" ∧
    (containsPat (goToLower n).data "options".data = false →
      strReplace1 (goToLower n).data "options".data "_options".data =
        (goToLower n).data) ∧
    (∀ i, occursAt (goToLower n).data "options".data i = true →
      (∀ j, j < i → occursAt (goToLower n).data "options".data j = false) →
      strReplace1 (goToLower n).data "options".data "_options".data =
        (goToLower n).data.take i ++ "_options".data ++
          (goToLower n).data.drop (i + ("options".data).length)) := by
  refine ⟨?_, ?_, ?_⟩
  · unfold outFileName
    have hdata : ((u ++ v).asString).data = u ++ v := rfl
    rw [hdata, trimRightCutset_append u v _ hv hu]
  · intro hno
    exact strReplace1_of_no_occ _ _ _
      (containsPat_false_isPrefixOf _ _ hno)
  · intro i hi hmin
    exact strReplace1_at _ _ _ i (by decide) hi hmin

/-- Witness for the C5 amended theorem at `types.go` / `AttachOptions`. -/
theorem outFileName_characterization_witness :
    outFileName "types.go" "AttachOptions" = "types_attach_options.go" := by
  have h := (outFileName_characterization "types".data ".go".data
    "AttachOptions" (by decide)
    (by intro c hc; cases hc; decide)).1
  simpa using h

/-! ## C6 -/

/-- C6 (confirmed): the rendered type text is the verbatim slice of the
source bytes between the type expression's `Pos()-1` and `End()-1` offsets
with exactly the first `*` occurrence removed: a star-free slice is kept
whole, and a slice `u ++ "*" ++ v` with star-free `u` becomes `u ++ v`,
every later `*` kept. -/
theorem fieldType_first_star_removed (b : List Char) (sn : String)
    (f : GoField) (fs : fieldStruct)
    (h : processField b sn f = .ok fs) :
    (('*' ∈ sliceBytes b (f.typePos - 1) (f.typeEnd - 1) → False) →
      fs.Type_ = (sliceBytes b (f.typePos - 1) (f.typeEnd - 1)).asString) ∧
    (∀ u v, sliceBytes b (f.typePos - 1) (f.typeEnd - 1) = u ++ '*' :: v →
      ('*' ∈ u → False) →
      fs.Type_ = (u ++ v).asString) := by
  have hty := processField_ok_type b sn f fs h
  unfold fieldTypeText at hty
  constructor
  · intro hno
    rw [hty, strReplace1_single_notMem '*' _ [] hno]
  · intro u v hsplit hno
    rw [hty, hsplit, strReplace1_single_first '*' u v [] hno]
    simp

/-- Witness for C6 at a doubly-starred type `**int`: only the first star is
removed. -/
theorem fieldType_first_star_removed_witness :
    (⟨"", false, "A", "T", "*int"⟩ : fieldStruct).Type_ =
      (([] : List Char) ++ "*int".data).asString := by
  have h := (fieldType_first_star_removed "x **int".data "T"
    ⟨["A"], .starExpr (.starExpr (.ident "int")), 3, 8, ""⟩
    ⟨"", false, "A", "T", "*int"⟩ rfl).2 [] "*int".data (by decide)
    (fun hm => by cases hm)
  exact h

/-! ## C7 -/

/-- C7 counterexample: a field entry with no name token at all is processed
without any error (the claim says it must fail with "bad name"); the
resulting descriptor simply has an empty name. -/
theorem unnamed_field_entry_processed_ok :
    processField "int".data "T" ⟨[], .ident "int", 1, 4, ""⟩ =
      Except.ok ⟨"", false, "", "T", "int"⟩ := by
  rfl

/-- C7 (amended): the "bad name" failure occurs exactly when a field entry
HAS a first name token and that token is the empty string; an entry with no
name token at all is processed successfully with an empty `Name`. -/
theorem bad_name_only_for_empty_first_token (b : List Char) (sn : String)
    (f : GoField) :
    (f.names.head? = some "" → processField b sn f = .error "bad name") ∧
    (f.names = [] →
      processField b sn f =
        Except.ok ⟨fmtComment f.comment, isComposite f.ty, "", sn,
          (fieldTypeText b f.typePos f.typeEnd).asString⟩) := by
  constructor
  · intro hh
    unfold processField
    cases hn : f.names with
    | nil => rw [hn] at hh; cases hh
    | cons n ns =>
      rw [hn] at hh
      simp only [List.head?_cons, Option.some.injEq] at hh
      subst hh
      simp
  · intro hnil
    unfold processField
    rw [hnil]

/-- Witness for the C7 amended theorem: an entry whose single name token is
empty trips "bad name"; an entry with no names is accepted. -/
theorem bad_name_only_for_empty_first_token_witness :
    processField "int".data "T" ⟨[""], .ident "int", 1, 4, ""⟩ =
      .error "bad name" ∧
    processField "int".data "T" ⟨[], .ident "int", 1, 4, "c"⟩ =
      Except.ok ⟨fmtComment "c", isComposite (.ident "int"), "", "T",
        (fieldTypeText "int".data 1 4).asString⟩ := by
  exact ⟨(bad_name_only_for_empty_first_token "int".data "T"
      ⟨[""], .ident "int", 1, 4, ""⟩).1 rfl,
    (bad_name_only_for_empty_first_token "int".data "T"
      ⟨[], .ident "int", 1, 4, "c"⟩).2 rfl⟩

/-! ## C4 -/

/-- C4: when no declared type matches the target name, the claim (and the
spec) require a fatal non-zero failure, but the code walks the whole tree
without a match, returns from `main` normally and exits 0, leaving the
already-created output file empty.  Evaluating the run model at such an
input shows exit code 0 and an empty output file. -/
theorem missing_target_type_silent_empty_success :
    runMain [] ⟨[], [⟨"Other", .structDef []⟩]⟩
        "containers.go" "ListOptions" "containers" =
      ⟨"containers_list_options.go", "", ExitKind.ok⟩ := by
  rfl

/-! ## C1 -/

/-- C1 counterexample: the entry `A, B int` declares the two fields `A` and
`B`, but the loop reads only `field.Names[0]` and emits a single
`WithA`/`GetA` pair, so the declared field `B` appears in no pair. -/
theorem multi_name_entry_counterexample :
    processFields "A, B int".data "T"
        [⟨["A", "B"], .ident "int", 6, 9, ""⟩] =
      Except.ok [⟨"", false, "A", "T", "int"⟩] ∧
    declaredFieldNames [⟨["A", "B"], .ident "int", 6, 9, ""⟩] = ["A", "B"] ∧
    setterNames (renderDecls
        ⟨"pkg", [], "T", [⟨"", false, "A", "T", "int"⟩]⟩) = ["A"] ∧
    getterNames (renderDecls
        ⟨"pkg", [], "T", [⟨"", false, "A", "T", "int"⟩]⟩) = ["A"] := by
  exact ⟨rfl, rfl, rfl, rfl⟩

/-- C1 (amended): the generated output contains exactly one
`With`/`Get` pair per field ENTRY of the matched declaration, named after
the entry's first name token (empty for an entry without one), in entry
declaration order, and no other pairs; additional name tokens of a
multi-name entry contribute no pairs. -/
theorem with_get_pair_per_field_entry (b : List Char) (pkg sn : String)
    (imports : List String) (fields : List GoField) (l : List fieldStruct)
    (h : processFields b sn fields = .ok l) :
    setterNames (renderDecls ⟨pkg, imports, sn, l⟩) =
      fields.map goFieldName ∧
    getterNames (renderDecls ⟨pkg, imports, sn, l⟩) =
      fields.map goFieldName ∧
    (setterNames (renderDecls ⟨pkg, imports, sn, l⟩)).length =
      fields.length := by
  have hnames := processFields_ok_names b sn fields l h
  have hs := setterNames_renderDecls ⟨pkg, imports, sn, l⟩
  have hg := getterNames_renderDecls ⟨pkg, imports, sn, l⟩
  simp only at hs hg
  rw [hs, hg, hnames]
  exact ⟨rfl, rfl, by rw [List.length_map]⟩

/-- Witness for the C1 amended theorem: a two-entry struct produces the two
pairs `WithName`/`GetName` and `WithLabels`/`GetLabels`, in order. -/
theorem with_get_pair_per_field_entry_witness :
    setterNames (renderDecls ⟨"pkg", [], "Opts",
        [⟨"", false, "Name", "Opts", "string"⟩,
         ⟨"", true, "Labels", "Opts", "map[string]string"⟩]⟩) =
      ["Name", "Labels"] ∧
    getterNames (renderDecls ⟨"pkg", [], "Opts",
        [⟨"", false, "Name", "Opts", "string"⟩,
         ⟨"", true, "Labels", "Opts", "map[string]string"⟩]⟩) =
      ["Name", "Labels"] := by
  have h := with_get_pair_per_field_entry
    "Name string Labels map[string]string x".data "pkg" "Opts" []
    [⟨["Name"], .ident "string", 6, 12, ""⟩,
     ⟨["Labels"], .mapType (.ident "string") (.ident "string"), 20, 37, ""⟩]
    [⟨"", false, "Name", "Opts", "string"⟩,
     ⟨"", true, "Labels", "Opts", "map[string]string"⟩]
    (by rfl)
  exact ⟨h.1, h.2.1⟩

/-! ## C2 -/

/-- Semantic reading of the generated accessor bodies for a non-composite
field: the field is stored behind a pointer, modelled as `Option V`
(`none` is nil, i.e. never set); `o.F = &value` stores `some value`. -/
def genWithNonComposite {V : Type} (v : V) : Option V := some v

/-- `if o.F == nil { var z T; return z }; return *o.F`: zero value when
unset, dereferenced stored value otherwise. -/
def genGetNonComposite {V : Type} (z : V) : Option V → V
  | none => z
  | some x => x

/-- For a composite field the generated setter assigns directly,
`o.F = value`. -/
def genWithComposite {V : Type} (v : V) : V := v

/-- For a composite field the stored value is itself nillable (`none` is
the nil map/slice, which is also the type's zero value); the getter's nil
branch returns `var z T` (= `none`), its main branch the stored value. -/
def genGetComposite {V : Type} : Option V → Option V
  | none => none
  | some x => some x

/-- C2 (confirmed): the `With` setter assigns `&value` exactly when the
field is non-composite and `value` when composite, then returns `o`; the
`Get` accessor nil-checks the field, returning the zero value `var z T`
when nil and otherwise `*o.F` (non-composite) or `o.F` (composite).
Semantically, get-after-set yields the set value and get-on-nil the zero
value. -/
theorem accessor_shapes (fs : fieldStruct) (V : Type) (z v : V) :
    printSetter fs =
      "\n// With" ++ fs.Name ++ " set " ++
        (if fs.Comment = "" then "field " ++ fs.Name ++ " to given value"
         else fs.Comment) ++
        "\nfunc(o *" ++ fs.StructName ++ ") With" ++ fs.Name ++
        "(value " ++ fs.Type_ ++ ") *" ++ fs.StructName ++
        " \x7b\n\to." ++ fs.Name ++ " = " ++
        (if fs.Composite then "value" else "&value") ++
        "\n\treturn o\n\x7d\n" ∧
    printGetter fs =
      "\n// Get" ++ fs.Name ++ " returns value of " ++
        (if fs.Comment = "" then "field " ++ fs.Name else fs.Comment) ++
        "\nfunc(o *" ++ fs.StructName ++ ") Get" ++ fs.Name ++ "() " ++
        fs.Type_ ++ " \x7b\n\tif o." ++ fs.Name ++
        " == nil \x7b\n\t\tvar z " ++ fs.Type_ ++
        "\n\t\treturn z\n\t\x7d\n    return " ++
        (if fs.Composite then "o." else "*o.") ++ fs.Name ++
        "\n\x7d\n" ∧
    genGetNonComposite z (genWithNonComposite v) = v ∧
    genGetNonComposite z (none : Option V) = z ∧
    genGetComposite (some (genWithComposite v)) = some v ∧
    genGetComposite (none : Option V) = none := by
  refine ⟨?_, ?_, rfl, rfl, rfl, rfl⟩
  · cases hc : fs.Composite <;>
      (apply String.ext; simp [printSetter, hc, String.data_append])
  · cases hc : fs.Composite <;>
      (apply String.ext; simp [printGetter, hc, String.data_append])

/-! ## C3 -/

/-- C3 counterexample: a field whose declared type is a POINTER to a struct
(`*ast.StarExpr` node) is NOT classified composite — the `switch` looks
only at the outermost node kind — so its setter wraps the value in `&`;
only the plain struct-value field classifies composite.  This refutes the
claim that both fields classify composite. -/
theorem pointer_to_struct_not_composite :
    isComposite (GoType.starExpr GoType.structType) = false ∧
    isComposite GoType.structType = true ∧
    processField "a *struct\x7b\x7d c".data "T"
        ⟨["A"], .starExpr GoType.structType, 3, 12, ""⟩ =
      Except.ok ⟨"", false, "A", "T", "struct\x7b\x7d"⟩ := by
  refine ⟨rfl, rfl, by rfl⟩

/-- C3 (amended): of two fields sharing an underlying struct type, the one
declared as a plain (inline) struct value classifies composite and its
setter assigns `value` directly, while the one declared as
pointer-to-struct classifies NON-composite — the classifier inspects only
the outermost syntax node — and its setter assigns `&value`, adding an
indirection. -/
theorem composite_classification_is_syntactic (t : GoType)
    (fs gs : fieldStruct)
    (hfs : fs.Composite = false) (hgs : gs.Composite = true) :
    isComposite (GoType.starExpr t) = false ∧
    isComposite GoType.structType = true ∧
    printSetter fs =
      "\n// With" ++ fs.Name ++ " set " ++
        (if fs.Comment = "" then "field " ++ fs.Name ++ " to given value"
         else fs.Comment) ++
        "\nfunc(o *" ++ fs.StructName ++ ") With" ++ fs.Name ++
        "(value " ++ fs.Type_ ++ ") *" ++ fs.StructName ++
        " \x7b\n\to." ++ fs.Name ++ " = &value\n\treturn o\n\x7d\n" ∧
    printSetter gs =
      "\n// With" ++ gs.Name ++ " set " ++
        (if gs.Comment = "" then "field " ++ gs.Name ++ " to given value"
         else gs.Comment) ++
        "\nfunc(o *" ++ gs.StructName ++ ") With" ++ gs.Name ++
        "(value " ++ gs.Type_ ++ ") *" ++ gs.StructName ++
        " \x7b\n\to." ++ gs.Name ++ " = value\n\treturn o\n\x7d\n" := by
  refine ⟨rfl, rfl, ?_, ?_⟩
  · apply String.ext
    simp [printSetter, hfs, String.data_append]
  · apply String.ext
    simp [printSetter, hgs, String.data_append]

/-- Witness for the C3 amended theorem at two concrete fields of type
`*struct{}` and `struct{}`. -/
theorem composite_classification_is_syntactic_witness :
    isComposite (GoType.starExpr GoType.structType) = false ∧
    printSetter ⟨"", false, "P", "T", "struct\x7b\x7d"⟩ =
      "\n// WithP set field P to given value" ++
        "\nfunc(o *T) WithP(value struct\x7b\x7d) *T" ++
        " \x7b\n\to.P = &value\n\treturn o\n\x7d\n" := by
  have h := composite_classification_is_syntactic GoType.structType
    ⟨"", false, "P", "T", "struct\x7b\x7d"⟩
    ⟨"", true, "V", "T", "struct\x7b\x7d"⟩ rfl rfl
  refine ⟨h.1, ?_⟩
  rw [h.2.2.1]
  decide

/-! ## C8 -/

/-- C8 (confirmed): a field's rendered comment is the attached comment text
with its first character lower-cased and then leading/trailing whitespace
trimmed; when the (normalized) comment is empty the setter and getter doc
lines fall back to the name-derived defaults "set field N to given value"
and "returns value of field N". -/
theorem comment_normalization_and_default (c : String) (r : Char)
    (rest sp1 m sp2 : List Char) (fs : fieldStruct)
    (hdata : c.data = r :: rest)
    (hsplit : Char.toLower r :: rest = sp1 ++ (m ++ sp2))
    (h1 : ∀ d ∈ sp1, goIsSpace d = true)
    (h2 : ∀ d ∈ sp2, goIsSpace d = true)
    (hh : ∀ d, m.head? = some d → goIsSpace d = false)
    (hl : ∀ d, m.getLast? = some d → goIsSpace d = false) :
    fmtComment c = m.asString ∧
    fmtComment "" = "" ∧
    (fs.Comment = "" →
      printSetter fs =
        "\n// With" ++ fs.Name ++ " set field " ++ fs.Name ++
          " to given value\nfunc(o *" ++ fs.StructName ++ ") With" ++
          fs.Name ++ "(value " ++ fs.Type_ ++ ") *" ++ fs.StructName ++
          " \x7b\n\to." ++ fs.Name ++ " = " ++
          (if fs.Composite then "value" else "&value") ++
          "\n\treturn o\n\x7d\n" ∧
      printGetter fs =
        "\n// Get" ++ fs.Name ++ " returns value of field " ++ fs.Name ++
          "\nfunc(o *" ++ fs.StructName ++ ") Get" ++ fs.Name ++ "() " ++
          fs.Type_ ++ " \x7b\n\tif o." ++ fs.Name ++
          " == nil \x7b\n\t\tvar z " ++ fs.Type_ ++
          "\n\t\treturn z\n\t\x7d\n    return " ++
          (if fs.Composite then "o." else "*o.") ++ fs.Name ++
          "\n\x7d\n") := by
  refine ⟨?_, rfl, ?_⟩
  · unfold fmtComment
    rw [hdata]
    simp only
    show (trimSpaceL ((Char.toLower r :: rest).asString).data).asString =
      m.asString
    have : ((Char.toLower r :: rest).asString).data =
        Char.toLower r :: rest := rfl
    rw [this, hsplit, trimSpaceL_eq sp1 m sp2 h1 h2 hh hl]
  · intro hcom
    constructor
    · cases hc : fs.Composite <;>
        (apply String.ext; simp [printSetter, hcom, hc, String.data_append])
    · cases hc : fs.Composite <;>
        (apply String.ext; simp [printGetter, hcom, hc, String.data_append])

/-- Witness for C8: a comment starting with an upper-case letter and ending
in a space is lower-cased and trimmed; a comment-less field gets the
defaults. -/
theorem comment_normalization_and_default_witness :
    fmtComment "Extra labels " = "extra labels" ∧
    printSetter ⟨"", false, "Name", "Opts", "string"⟩ =
      "\n// WithName set field Name to given value\nfunc(o *Opts) " ++
        "WithName(value string) *Opts \x7b\n\to.Name = &value\n\treturn " ++
        "o\n\x7d\n" := by
  have h := comment_normalization_and_default "Extra labels " 'E'
    "xtra labels ".data [] "extra labels".data [' ']
    ⟨"", false, "Name", "Opts", "string"⟩
    rfl (by decide) (by decide) (by decide)
    (by intro d hd; cases hd; decide)
    (by intro d hd; cases hd; decide)
  refine ⟨h.1, ?_⟩
  rw [(h.2.2 rfl).1]
  decide

/-! ## C9 and C10 -/

theorem inspectLoop_append_skip (target pkg : String)
    (imports : List String) (b : List Char) (pre rest : List TypeSpec)
    (st : LoopState) (h : ∀ ts ∈ pre, ts.name ≠ target) :
    inspectLoop target pkg imports b (pre ++ rest) st =
      inspectLoop target pkg imports b rest st := by
  induction pre with
  | nil => rfl
  | cons ts pre' ih =>
    rw [List.cons_append]
    have hstep : inspectLoop target pkg imports b (ts :: (pre' ++ rest)) st =
        inspectLoop target pkg imports b (pre' ++ rest) st := by
      conv_lhs => rw [inspectLoop]
      rw [if_neg (h ts (List.mem_cons_self ts pre'))]
    rw [hstep]
    exact ih (fun ts' hts' => h ts' (List.mem_cons_of_mem ts hts'))

theorem inspectLoop_first_match (target pkg : String)
    (imports : List String) (b : List Char) (fields : List GoField)
    (l : List fieldStruct) (rest : List TypeSpec) (st : LoopState)
    (hclosed : st.closed = false)
    (hp : processFields b target fields = .ok l) :
    inspectLoop target pkg imports b
        (⟨target, .structDef fields⟩ :: rest) st =
      inspectLoop target pkg imports b rest
        ⟨st.fieldStructs ++ l, true,
          st.content ++
            renderBody ⟨pkg, imports, target, st.fieldStructs ++ l⟩⟩ := by
  conv_lhs => rw [inspectLoop]
  rw [if_pos rfl]
  simp only [hp]
  rw [if_neg (by simp [hclosed])]

/-- C9 counterexample: with two struct type declarations named `T` in one
file, the second match is NOT silently ignored: the callback runs the
template again against the already-closed output file, the execution fails
and the program exits 1 — while the same file with a single declaration
exits 0. -/
theorem second_match_aborts_run :
    (runMain "q *int".data
        ⟨[], [⟨"T", .structDef [⟨["Q"], .starExpr (.ident "int"), 3, 7, ""⟩]⟩,
              ⟨"T", .structDef [⟨["Q"], .starExpr (.ident "int"), 3, 7, ""⟩]⟩]⟩
        "y.go" "T" "p").exit = ExitKind.exit1 ∧
    (runMain "q *int".data
        ⟨[], [⟨"T", .structDef [⟨["Q"], .starExpr (.ident "int"), 3, 7, ""⟩]⟩]⟩
        "y.go" "T" "p").exit = ExitKind.ok := by
  exact ⟨by decide, by decide⟩

/-- C9 (amended): only the FIRST matching declaration is rendered — the
output file holds exactly the body built from its fields — but a later
matching declaration is not silently ignored: it triggers another template
execution against the closed file, so the run aborts with a non-zero exit
instead of finishing normally. -/
theorem first_match_rendered_later_match_aborts
    (b : List Char) (srcFile target pkg : String) (imps : List String)
    (pre mid post : List TypeSpec) (fields : List GoField)
    (l : List fieldStruct) (s2 : TypeSpec)
    (hpre : ∀ ts ∈ pre, ts.name ≠ target)
    (hp : processFields b target fields = .ok l)
    (hs2 : s2.name = target) :
    (runMain b ⟨imps, pre ++ ⟨target, .structDef fields⟩ ::
        (mid ++ s2 :: post)⟩ srcFile target pkg).content =
      renderBody ⟨pkg,
        "\"reflect\"" ::
          "\"github.com/containers/podman/v4/pkg/bindings/internal/util\"" ::
          imps, target, l⟩ ∧
    (runMain b ⟨imps, pre ++ ⟨target, .structDef fields⟩ ::
        (mid ++ s2 :: post)⟩ srcFile target pkg).exit ≠ ExitKind.ok := by
  unfold runMain
  simp only
  rw [inspectLoop_append_skip _ _ _ _ pre _ _ hpre]
  rw [inspectLoop_first_match _ _ _ _ fields l _ _ rfl hp]
  have hcl := inspectLoop_closed_content target pkg
    ("\"reflect\"" ::
      "\"github.com/containers/podman/v4/pkg/bindings/internal/util\"" ::
      imps) b (mid ++ s2 :: post)
    ⟨[] ++ l, true, "" ++ renderBody ⟨pkg,
      "\"reflect\"" ::
        "\"github.com/containers/podman/v4/pkg/bindings/internal/util\"" ::
        imps, target, [] ++ l⟩⟩ rfl
  have habort := inspectLoop_closed_aborts target pkg
    ("\"reflect\"" ::
      "\"github.com/containers/podman/v4/pkg/bindings/internal/util\"" ::
      imps) b (mid ++ s2 :: post)
    ⟨[] ++ l, true, "" ++ renderBody ⟨pkg,
      "\"reflect\"" ::
        "\"github.com/containers/podman/v4/pkg/bindings/internal/util\"" ::
        imps, target, [] ++ l⟩⟩ rfl
    ⟨s2, by simp, hs2⟩
  have hnotok := inspectLoop_never_ok target pkg
    ("\"reflect\"" ::
      "\"github.com/containers/podman/v4/pkg/bindings/internal/util\"" ::
      imps) b (mid ++ s2 :: post)
    ⟨[] ++ l, true, "" ++ renderBody ⟨pkg,
      "\"reflect\"" ::
        "\"github.com/containers/podman/v4/pkg/bindings/internal/util\"" ::
        imps, target, [] ++ l⟩⟩
  constructor
  · rw [hcl.1]
    simp
  · cases hres : (inspectLoop target pkg
      ("\"reflect\"" ::
        "\"github.com/containers/podman/v4/pkg/bindings/internal/util\"" ::
        imps) b (mid ++ s2 :: post)
      ⟨[] ++ l, true, "" ++ renderBody ⟨pkg,
        "\"reflect\"" ::
          "\"github.com/containers/podman/v4/pkg/bindings/internal/util\"" ::
          imps, target, [] ++ l⟩⟩).2 with
    | none => exact absurd hres habort
    | some k =>
      rw [hres] at hnotok
      simp only [hres, Option.getD_some]
      intro he
      exact hnotok (by rw [he])

/-- Witness for the C9 amended theorem at a concrete two-declaration
file. -/
theorem first_match_rendered_later_match_aborts_witness :
    (runMain "q *int".data
        ⟨[], [⟨"R", .structDef [⟨["Q"], .starExpr (.ident "int"), 3, 7, ""⟩]⟩,
              ⟨"R", .structDef [⟨["Q"], .starExpr (.ident "int"), 3, 7, ""⟩]⟩]⟩
        "y.go" "R" "p").content =
      renderBody ⟨"p",
        ["\"reflect\"",
         "\"github.com/containers/podman/v4/pkg/bindings/internal/util\""],
        "R", [⟨"", false, "Q", "R", "int"⟩]⟩ ∧
    (runMain "q *int".data
        ⟨[], [⟨"R", .structDef [⟨["Q"], .starExpr (.ident "int"), 3, 7, ""⟩]⟩,
              ⟨"R", .structDef [⟨["Q"], .starExpr (.ident "int"), 3, 7, ""⟩]⟩]⟩
        "y.go" "R" "p").exit ≠ ExitKind.ok := by
  have h := first_match_rendered_later_match_aborts "q *int".data "y.go"
    "R" "p" [] [] [] []
    [⟨["Q"], .starExpr (.ident "int"), 3, 7, ""⟩]
    [⟨"", false, "Q", "R", "int"⟩]
    ⟨"R", .structDef [⟨["Q"], .starExpr (.ident "int"), 3, 7, ""⟩]⟩
    (by intro ts hts; cases hts) (by rfl) rfl
  exact h

/-- C10 counterexample: the claim's consequence says a failing run leaves
an EMPTY output file, but a run that fails only after the first successful
render (here: a duplicate declaration making the second template execution
fail against the closed file) exits non-zero with the rendered content
still in the file. -/
theorem late_failure_leaves_rendered_content :
    (runMain "w []int".data
        ⟨[], [⟨"Q", .structDef [⟨["W"], .arrayType (.ident "int"), 3, 8, ""⟩]⟩,
              ⟨"Q", .structDef [⟨["W"], .arrayType (.ident "int"), 3, 8, ""⟩]⟩]⟩
        "z.go" "Q" "p").exit ≠ ExitKind.ok ∧
    (runMain "w []int".data
        ⟨[], [⟨"Q", .structDef [⟨["W"], .arrayType (.ident "int"), 3, 8, ""⟩]⟩,
              ⟨"Q", .structDef [⟨["W"], .arrayType (.ident "int"), 3, 8, ""⟩]⟩]⟩
        "z.go" "Q" "p").content ≠ "" := by
  exact ⟨by decide, by decide⟩

/-- C10 (amended): the output file is created — truncating any previous
file at that path — before the tree is searched, so a run that finds no
matching declaration ends with exit code 0 and an empty output file, and a
run that aborts during the first match BEFORE the template renders (a
non-struct match, or a field-processing panic) leaves the file empty as
well; only a failure after the first render leaves the rendered content
behind. -/
theorem output_truncated_before_search (b : List Char) (f : SrcFile)
    (srcFile target pkg : String) (pre rest : List TypeSpec)
    (s : TypeSpec) :
    ((∀ ts ∈ f.specs, ts.name ≠ target) →
      runMain b f srcFile target pkg =
        ⟨outFileName srcFile target, "", ExitKind.ok⟩) ∧
    (∀ t, f.specs = pre ++ s :: rest →
      (∀ ts ∈ pre, ts.name ≠ target) →
      s.name = target → s.def_ = .otherDef t →
      runMain b f srcFile target pkg =
        ⟨outFileName srcFile target, "", ExitKind.panicked⟩) ∧
    (∀ fields e, f.specs = pre ++ s :: rest →
      (∀ ts ∈ pre, ts.name ≠ target) →
      s.name = target → s.def_ = .structDef fields →
      processFields b target fields = .error e →
      runMain b f srcFile target pkg =
        ⟨outFileName srcFile target, "", ExitKind.panicked⟩) := by
  refine ⟨?_, ?_, ?_⟩
  · intro hnone
    unfold runMain
    simp only
    rw [inspectLoop_skip _ _ _ _ _ _ hnone]
    rfl
  · intro t hspecs hpre hname hdef
    unfold runMain
    simp only
    rw [hspecs, inspectLoop_append_skip _ _ _ _ pre _ _ hpre]
    conv_lhs => rw [inspectLoop]
    rw [if_pos hname, hdef]
    rfl
  · intro fields e hspecs hpre hname hdef hperr
    unfold runMain
    simp only
    rw [hspecs, inspectLoop_append_skip _ _ _ _ pre _ _ hpre]
    conv_lhs => rw [inspectLoop]
    rw [if_pos hname, hdef]
    simp only [hperr]
    rfl

/-- Witness for the C10 amended theorem: a no-match run yields an empty
file and exit 0; a run whose target names a non-struct type panics with
the file still empty. -/
theorem output_truncated_before_search_witness :
    runMain [] ⟨[], [⟨"Other", .structDef []⟩]⟩ "x.go" "Conf" "p" =
      ⟨outFileName "x.go" "Conf", "", ExitKind.ok⟩ ∧
    runMain [] ⟨[], [⟨"Conf", .otherDef (.ident "int")⟩]⟩ "x.go" "Conf"
        "p" =
      ⟨outFileName "x.go" "Conf", "", ExitKind.panicked⟩ := by
  constructor
  · exact (output_truncated_before_search [] ⟨[], [⟨"Other", .structDef []⟩]⟩
      "x.go" "Conf" "p" [] [] ⟨"Other", .structDef []⟩).1
      (by intro ts hts; simp at hts; rw [hts]; decide)
  · exact (output_truncated_before_search []
      ⟨[], [⟨"Conf", .otherDef (.ident "int")⟩]⟩
      "x.go" "Conf" "p" [] [] ⟨"Conf", .otherDef (.ident "int")⟩).2.1
      (.ident "int") rfl (by intro ts hts; cases hts) rfl rfl
